import Mathlib

/-!
Shallow embedding of the mathematical core of the `canvas` 2D vector-path
library (`path_util.go`, `util.go`), with theorems checking its
natural-language specification against the code.

Go `float64` arithmetic is embedded as exact real arithmetic (`ℝ`).
The `math.NaN()` "absent" sentinel is embedded as `Option ℝ` (`none` = NaN);
a Go `panic` is embedded as an `Option` result being `none`.
Loops of the source are embedded with explicit fuel matching the source's
iteration cap where it has one (`bisectionMethod`), and with a large fixed
fuel where the source loop is unbounded (`flattenSmoothCubicBezier`); every
theorem about the latter concerns runs that exit the loop within fuel.
-/

open Real

namespace Canvas

/-- Modelled from the spec: `Point` is a collaborator primitive missing from
the sources at hand — an immutable 2D vector with fields X, Y. -/
structure Point where
  X : ℝ
  Y : ℝ

namespace Point

/-- Modelled from the spec: vector addition. -/
def add (p q : Point) : Point := ⟨p.X + q.X, p.Y + q.Y⟩

/-- Modelled from the spec: vector subtraction. -/
def sub (p q : Point) : Point := ⟨p.X - q.X, p.Y - q.Y⟩

/-- Modelled from the spec: scalar multiplication. -/
def mul (p : Point) (f : ℝ) : Point := ⟨p.X * f, p.Y * f⟩

/-- Modelled from the spec: dot product. -/
def dot (p q : Point) : ℝ := p.X * q.X + p.Y * q.Y

/-- Modelled from the spec: 2D cross product (perp-dot). -/
def perpDot (p q : Point) : ℝ := p.X * q.Y - p.Y * q.X

/-- Modelled from the spec: Euclidean length. -/
noncomputable def length (p : Point) : ℝ := Real.sqrt (p.X * p.X + p.Y * p.Y)

/-- Modelled from the spec: scale to length `d`; the zero vector maps to zero. -/
noncomputable def norm (p : Point) (d : ℝ) : Point :=
  if p.length = 0 then ⟨0, 0⟩ else p.mul (d / p.length)

/-- Modelled from the spec: rotate 90° clockwise. -/
def rot90CW (p : Point) : Point := ⟨p.Y, -p.X⟩

/-- Modelled from the spec: `Interpolate(other, t) = self + (other−self)·t`. -/
def interpolate (p q : Point) (t : ℝ) : Point := p.add ((q.sub p).mul t)

end Point

/-- Modelled from the spec: one command of the append-only path sink
(the sink exposes at minimum `line_to` and `quad_to`). -/
inductive PathCmd where
  | lineTo (x y : ℝ)
  | quadTo (cx cy x y : ℝ)

/-- Modelled from the spec: the path sink is an append-only ordered sequence
of line/quad commands; the core only appends. -/
abbrev Path := List PathCmd

/-- Modelled from the spec: append a `line_to` command. -/
def Path.lineTo (p : Path) (x y : ℝ) : Path := p ++ [PathCmd.lineTo x y]

/-- Modelled from the spec: append a `quad_to` command. -/
def Path.quadTo (p : Path) (cx cy x y : ℝ) : Path := p ++ [PathCmd.quadTo cx cy x y]

/-- The clipping applied to each candidate root in `solveQuadraticFormula`:
`if 1.0 <= x || x < 0.0 { x = math.NaN() }`. -/
noncomputable def clipUnit (x : ℝ) : Option ℝ :=
  if 1 ≤ x ∨ x < 0 then none else some x

/-- The general (citardauq) tail of `solveQuadraticFormula`, reached when
a ≠ 0, c ≠ 0 and the discriminant is positive. -/
noncomputable def solveQuadraticCitardauq (a b c : ℝ) : Option ℝ × Option ℝ :=
  let q := if b < 0 then -Real.sqrt (b * b - 4 * a * c) else Real.sqrt (b * b - 4 * a * c)
  let x1 := -(b + q) / (2 * a)
  let x2 := c / (a * x1)
  if x1 > x2 then (clipUnit x2, clipUnit x1) else (clipUnit x1, clipUnit x2)

/-- `solveQuadraticFormula` of `path_util.go`: solves a·x²+b·x+c = 0 keeping
only roots in [0,1); `none` embeds the `math.NaN()` sentinel. -/
noncomputable def solveQuadraticFormula (a b c : ℝ) : Option ℝ × Option ℝ :=
  if a = 0 then
    if b = 0 then
      if c = 0 then
        -- all terms disappear, all x satisfy the solution
        (some 0, none)
      else
        -- linear term disappears, no solutions
        (none, none)
    else
      -- quadratic term disappears, solve linear equation
      (clipUnit (-c / b), none)
  else if c = 0 then
    -- no constant term, one solution at zero and one from solving linearly
    (some 0, clipUnit (-b / a))
  else if b * b - 4 * a * c < 0 then (none, none)
  else if b * b - 4 * a * c = 0 then (clipUnit (-b / (2 * a)), none)
  else solveQuadraticCitardauq a b c

/-! ### Theorems: RootFinder (C3, C7) -/

lemma clipUnit_some {x v : ℝ} (h : clipUnit x = some v) : v = x ∧ 0 ≤ x ∧ x < 1 := by
  unfold clipUnit at h
  by_cases hc : 1 ≤ x ∨ x < 0
  · simp [hc] at h
  · push_neg at hc
    simp only [if_neg (show ¬(1 ≤ x ∨ x < 0) by push_neg; exact hc),
      Option.some.injEq] at h
    exact ⟨h.symm, hc.2, hc.1⟩

lemma citardauq_facts (a b c : ℝ) (ha : a ≠ 0) (hc : c ≠ 0)
    (hd : 0 < b * b - 4 * a * c) :
    (∀ v, (solveQuadraticCitardauq a b c).1 = some v →
        (0 ≤ v ∧ v < 1) ∧ a * v ^ 2 + b * v + c = 0) ∧
    (∀ v, (solveQuadraticCitardauq a b c).2 = some v →
        (0 ≤ v ∧ v < 1) ∧ a * v ^ 2 + b * v + c = 0) ∧
    (∀ v w, (solveQuadraticCitardauq a b c).1 = some v →
        (solveQuadraticCitardauq a b c).2 = some w → v ≤ w) := by
  have hd0 : (0:ℝ) ≤ b * b - 4 * a * c := le_of_lt hd
  set q : ℝ := if b < 0 then -Real.sqrt (b * b - 4 * a * c)
      else Real.sqrt (b * b - 4 * a * c) with hqdef
  have hq2 : q * q = b * b - 4 * a * c := by
    rcases lt_or_le b 0 with hb | hb
    · rw [hqdef, if_pos hb, neg_mul_neg, Real.mul_self_sqrt hd0]
    · rw [hqdef, if_neg (not_lt.mpr hb), Real.mul_self_sqrt hd0]
  set x1 : ℝ := -(b + q) / (2 * a) with hx1def
  have hnum : (b + q) ^ 2 - 2 * b * (b + q) + 4 * a * c = 0 := by
    linear_combination hq2
  have hroot1 : a * x1 ^ 2 + b * x1 + c = 0 := by
    have hstep : a * x1 ^ 2 + b * x1 + c =
        ((b + q) ^ 2 - 2 * b * (b + q) + 4 * a * c) / (4 * a) := by
      rw [hx1def]
      field_simp
      ring
    rw [hstep, hnum, zero_div]
  have hx1ne : x1 ≠ 0 := by
    intro h0
    rw [h0] at hroot1
    simp at hroot1
    exact hc hroot1
  set x2 : ℝ := c / (a * x1) with hx2def
  have hroot2 : a * x2 ^ 2 + b * x2 + c = 0 := by
    have hax1 : a * x1 ≠ 0 := mul_ne_zero ha hx1ne
    have hstep : a * x2 ^ 2 + b * x2 + c =
        (c * a * (a * x1 ^ 2 + b * x1 + c)) / (a * x1) ^ 2 := by
      rw [hx2def]
      field_simp
      ring
    rw [hstep, hroot1, mul_zero, zero_div]
  have key : ∀ v, (v = x1 ∨ v = x2) → a * v ^ 2 + b * v + c = 0 := by
    rintro v (rfl | rfl) <;> assumption
  have main : solveQuadraticCitardauq a b c =
      if x1 > x2 then (clipUnit x2, clipUnit x1) else (clipUnit x1, clipUnit x2) := by
    rw [solveQuadraticCitardauq]
  refine ⟨?_, ?_, ?_⟩
  · intro v hv
    rw [main] at hv
    by_cases hgt : x1 > x2
    · rw [if_pos hgt] at hv
      obtain ⟨rfl, h0, h1⟩ := clipUnit_some hv
      exact ⟨⟨h0, h1⟩, key _ (Or.inr rfl)⟩
    · rw [if_neg hgt] at hv
      obtain ⟨rfl, h0, h1⟩ := clipUnit_some hv
      exact ⟨⟨h0, h1⟩, key _ (Or.inl rfl)⟩
  · intro v hv
    rw [main] at hv
    by_cases hgt : x1 > x2
    · rw [if_pos hgt] at hv
      obtain ⟨rfl, h0, h1⟩ := clipUnit_some hv
      exact ⟨⟨h0, h1⟩, key _ (Or.inl rfl)⟩
    · rw [if_neg hgt] at hv
      obtain ⟨rfl, h0, h1⟩ := clipUnit_some hv
      exact ⟨⟨h0, h1⟩, key _ (Or.inr rfl)⟩
  · intro v w hv hw
    rw [main] at hv hw
    by_cases hgt : x1 > x2
    · rw [if_pos hgt] at hv hw
      obtain ⟨rfl, _, _⟩ := clipUnit_some hv
      obtain ⟨rfl, _, _⟩ := clipUnit_some hw
      exact le_of_lt hgt
    · rw [if_neg hgt] at hv hw
      obtain ⟨rfl, _, _⟩ := clipUnit_some hv
      obtain ⟨rfl, _, _⟩ := clipUnit_some hw
      exact not_lt.mp hgt

/-- C3: every non-NaN value returned by `solveQuadraticFormula` lies in [0,1)
and is a root of a·x²+b·x+c, and whenever both returned values are non-NaN
the first is at most the second. -/
theorem solveQuadraticFormula_correct (a b c : ℝ) :
    (∀ x, (solveQuadraticFormula a b c).1 = some x →
        (0 ≤ x ∧ x < 1) ∧ a * x ^ 2 + b * x + c = 0) ∧
    (∀ x, (solveQuadraticFormula a b c).2 = some x →
        (0 ≤ x ∧ x < 1) ∧ a * x ^ 2 + b * x + c = 0) ∧
    (∀ x y, (solveQuadraticFormula a b c).1 = some x →
        (solveQuadraticFormula a b c).2 = some y → x ≤ y) := by
  by_cases ha : a = 0
  · subst ha
    by_cases hb : b = 0
    · subst hb
      by_cases hc : c = 0
      · subst hc
        have hmain : solveQuadraticFormula 0 0 0 = (some 0, none) := by
          simp [solveQuadraticFormula]
        rw [hmain]
        refine ⟨?_, ?_, ?_⟩ <;> simp
      · have hmain : solveQuadraticFormula 0 0 c = (none, none) := by
          simp [solveQuadraticFormula, hc]
        rw [hmain]
        refine ⟨?_, ?_, ?_⟩ <;> simp
    · have hmain : solveQuadraticFormula 0 b c = (clipUnit (-c / b), none) := by
        simp [solveQuadraticFormula, hb]
      rw [hmain]
      refine ⟨?_, ?_, ?_⟩
      · intro x hx
        obtain ⟨rfl, h0, h1⟩ := clipUnit_some hx
        refine ⟨⟨h0, h1⟩, ?_⟩
        field_simp
        ring
      · intro x hx
        simp at hx
      · intro x y _ hy
        simp at hy
  · by_cases hc : c = 0
    · subst hc
      have hmain : solveQuadraticFormula a b 0 = (some 0, clipUnit (-b / a)) := by
        simp [solveQuadraticFormula, ha]
      rw [hmain]
      refine ⟨?_, ?_, ?_⟩
      · intro x hx
        simp only [Option.some.injEq] at hx
        subst hx
        norm_num
      · intro x hx
        obtain ⟨rfl, h0, h1⟩ := clipUnit_some hx
        refine ⟨⟨h0, h1⟩, ?_⟩
        field_simp
        ring
      · intro x y hx hy
        simp only [Option.some.injEq] at hx
        obtain ⟨rfl, h0, _⟩ := clipUnit_some hy
        rw [← hx]
        exact h0
    · by_cases hd1 : b * b - 4 * a * c < 0
      · have hmain : solveQuadraticFormula a b c = (none, none) := by
          simp [solveQuadraticFormula, ha, hc, hd1]
        rw [hmain]
        refine ⟨?_, ?_, ?_⟩ <;> simp
      · by_cases hd2 : b * b - 4 * a * c = 0
        · have hmain : solveQuadraticFormula a b c = (clipUnit (-b / (2 * a)), none) := by
            simp [solveQuadraticFormula, ha, hc, hd1, hd2]
          rw [hmain]
          refine ⟨?_, ?_, ?_⟩
          · intro x hx
            obtain ⟨rfl, h0, h1⟩ := clipUnit_some hx
            refine ⟨⟨h0, h1⟩, ?_⟩
            have hstep : a * (-b / (2 * a)) ^ 2 + b * (-b / (2 * a)) + c =
                (-(b * b - 4 * a * c)) / (4 * a) := by
              field_simp
              ring
            rw [hstep, hd2, neg_zero, zero_div]
          · intro x hx
            simp at hx
          · intro x y _ hy
            simp at hy
        · have hd : 0 < b * b - 4 * a * c :=
            lt_of_le_of_ne (not_lt.mp hd1) (Ne.symm hd2)
          have hmain : solveQuadraticFormula a b c = solveQuadraticCitardauq a b c := by
            simp [solveQuadraticFormula, ha, hc, hd1, hd2]
          rw [hmain]
          exact citardauq_facts a b c ha hc hd

/-- C3 witness: at a = 1, b = −3/2, c = 1/2 the solver returns the root 1/2
in its first component (the second mathematical root 1 is excluded by the
half-open range). -/
theorem solveQuadraticFormula_correct_witness :
    ((0:ℝ) ≤ 1/2 ∧ (1/2:ℝ) < 1) ∧
      (1:ℝ) * (1/2) ^ 2 + (-3/2) * (1/2) + 1/2 = 0 := by
  apply (solveQuadraticFormula_correct 1 (-3/2) (1/2)).1 (1/2)
  have hs : Real.sqrt ((-3/2 : ℝ) * (-3/2) - 4 * 1 * (1/2)) = 1/2 := by
    rw [show ((-3/2 : ℝ) * (-3/2) - 4 * 1 * (1/2)) = (1/2)^2 by norm_num,
      Real.sqrt_sq (by norm_num)]
  have hcit : solveQuadraticCitardauq 1 (-3/2) (1/2) = (some (1/2), none) := by
    rw [solveQuadraticCitardauq]
    simp only [hs, if_pos (show (-3/2:ℝ) < 0 by norm_num)]
    norm_num [clipUnit]
  have hmain : solveQuadraticFormula 1 (-3/2) (1/2) = (some (1/2), none) := by
    rw [solveQuadraticFormula,
      if_neg (show ¬(1:ℝ) = 0 by norm_num),
      if_neg (show ¬(1/2:ℝ) = 0 by norm_num),
      if_neg (show ¬((-3/2:ℝ) * (-3/2) - 4 * 1 * (1/2) < 0) by norm_num),
      if_neg (show ¬((-3/2:ℝ) * (-3/2) - 4 * 1 * (1/2) = 0) by norm_num)]
    exact hcit
  rw [hmain]

/-- C7: a = b = c = 0 yields the "infinitely many roots" sentinel (0, NaN),
which differs from the "absent" result (NaN, NaN) returned whenever
a = b = 0 and c ≠ 0. -/
theorem solveQuadraticFormula_degenerate_sentinels :
    solveQuadraticFormula 0 0 0 = (some 0, none) ∧
    (∀ c : ℝ, c ≠ 0 → solveQuadraticFormula 0 0 c = (none, none)) ∧
    (some (0:ℝ), (none : Option ℝ)) ≠ ((none : Option ℝ), (none : Option ℝ)) := by
  refine ⟨by simp [solveQuadraticFormula], ?_, by simp⟩
  intro c hc
  simp [solveQuadraticFormula, hc]

/-- C7 witness: instantiated at c = 1. -/
theorem solveQuadraticFormula_degenerate_sentinels_witness :
    solveQuadraticFormula 0 0 1 = (none, none) ∧
      solveQuadraticFormula 0 0 0 = (some 0, none) := by
  have h := solveQuadraticFormula_degenerate_sentinels
  exact ⟨h.2.1 1 (by norm_num), h.1⟩

/-! ### Quadrature and bisection (C4, C5) -/

/-- `gaussLegendre5` of `path_util.go`: order-5 Gauss-Legendre quadrature with
the hard-coded abscissae and weights. -/
noncomputable def gaussLegendre5 (f : ℝ → ℝ) (a b : ℝ) : ℝ :=
  let c := (b - a) / 2
  let d := (a + b) / 2
  let Qd1 := f (-0.90618 * c + d)
  let Qd2 := f (-0.538469 * c + d)
  let Qd3 := f d
  let Qd4 := f (0.538469 * c + d)
  let Qd5 := f (0.90618 * c + d)
  c * (0.236927 * (Qd1 + Qd5) + 0.478629 * (Qd2 + Qd4) + 0.568889 * Qd3)

/-- C4 counterexample: with the hard-coded weights (which sum to 2.000001,
not 2), order-5 quadrature of f = 1 over [0,1] is not exactly 1, and of
f(x) = x over [0,2] is not exactly 2. -/
theorem gaussLegendre5_not_exact :
    gaussLegendre5 (fun _ => 1) 0 1 ≠ 1 ∧
      gaussLegendre5 (fun x => x) 0 2 ≠ 2 := by
  constructor <;> norm_num [gaussLegendre5]

/-- C4 as amended: order-5 quadrature of f = 1 over [0,1] returns exactly
1.0000005, and of f(x) = x over [0,2] exactly 2.000001 — the exact integrals
scaled by half the weight sum 2.000001, hence within 10⁻⁶ of 1 and 2 but not
equal to them. -/
theorem gaussLegendre5_constant_linear :
    gaussLegendre5 (fun _ => 1) 0 1 = 1.0000005 ∧
      gaussLegendre5 (fun x => x) 0 2 = 2.000001 := by
  constructor <;> norm_num [gaussLegendre5]

/-- The loop of `bisectionMethod`, with fuel equal to the remaining allowed
iterations; at fuel 0 the source's `n >= MaxIterations` check returns the
current midpoint. -/
noncomputable def bisectionLoop (f : ℝ → ℝ) (y tolX tolY : ℝ) :
    ℕ → ℝ → ℝ → ℝ
  | 0, xmin, xmax => (xmin + xmax) / 2
  | fuel + 1, xmin, xmax =>
      let x := (xmin + xmax) / 2
      let dy := f x - y
      if |dy| < tolY ∨ |xmax - xmin| / 2 < tolX then x
      else if dy > 0 then bisectionLoop f y tolX tolY fuel xmin x
      else bisectionLoop f y tolX tolY fuel x xmax

/-- `bisectionMethod` of `path_util.go`: find x with f(x) = y in
[xmin, xmax], capped at MaxIterations = 100, tolerance 0.1% of the original
bracket width and of the function-value range. -/
noncomputable def bisectionMethod (f : ℝ → ℝ) (y xmin xmax : ℝ) : ℝ :=
  bisectionLoop f y (|xmax - xmin| * 0.001) (|f xmax - f xmin| * 0.001) 100 xmin xmax

lemma bisectionLoop_mem (f : ℝ → ℝ) (y tolX tolY : ℝ) :
    ∀ fuel xmin xmax, xmin ≤ xmax →
      bisectionLoop f y tolX tolY fuel xmin xmax ∈ Set.Icc xmin xmax := by
  intro fuel
  induction fuel with
  | zero =>
      intro xmin xmax h
      simp only [bisectionLoop, Set.mem_Icc]
      constructor <;> linarith
  | succ n ih =>
      intro xmin xmax h
      have hmid : xmin ≤ (xmin + xmax) / 2 ∧ (xmin + xmax) / 2 ≤ xmax := by
        constructor <;> linarith
      simp only [bisectionLoop]
      by_cases h1 : |f ((xmin + xmax) / 2) - y| < tolY ∨ |xmax - xmin| / 2 < tolX
      · rw [if_pos h1]
        exact Set.mem_Icc.mpr hmid
      · rw [if_neg h1]
        by_cases h2 : f ((xmin + xmax) / 2) - y > 0
        · rw [if_pos h2]
          have := ih xmin ((xmin + xmax) / 2) hmid.1
          rw [Set.mem_Icc] at this ⊢
          exact ⟨this.1, le_trans this.2 hmid.2⟩
        · rw [if_neg h2]
          have := ih ((xmin + xmax) / 2) xmax hmid.2
          rw [Set.mem_Icc] at this ⊢
          exact ⟨le_trans hmid.1 this.1, this.2⟩

/-- C5: `bisectionMethod` always terminates within its 100-iteration cap
(its loop is structurally bounded by that fuel) and, whenever the bracket is
ordered, returns a value inside the closed bracket [xmin, xmax]; it never
fails, falling back to the current midpoint at the cap or tolerance exit. -/
theorem bisectionMethod_mem (f : ℝ → ℝ) (y xmin xmax : ℝ) (h : xmin ≤ xmax) :
    bisectionMethod f y xmin xmax ∈ Set.Icc xmin xmax := by
  unfold bisectionMethod
  exact bisectionLoop_mem f y _ _ 100 xmin xmax h

/-- C5 witness: bisecting f(x) = x for target 1/2 on [0,1] yields a value
in [0,1]. -/
theorem bisectionMethod_mem_witness :
    (0:ℝ) ≤ 1 ∧ bisectionMethod (fun x => x) (1/2) 0 1 ∈ Set.Icc (0:ℝ) 1 :=
  ⟨by norm_num, bisectionMethod_mem (fun x => x) (1/2) 0 1 (by norm_num)⟩

/-! ### Arc-length parametrization (C6) -/

/-- `polynomialApprox3` of `path_util.go`: fit a cubic through the integral
of `fp` sampled at 1/3, 2/3, 1 of the domain; returns the polynomial and the
total length `math.Abs(y3)`. -/
noncomputable def polynomialApprox3 (gaussLegendre : (ℝ → ℝ) → ℝ → ℝ → ℝ) (fp : ℝ → ℝ)
    (xmin xmax : ℝ) : (ℝ → ℝ) × ℝ :=
  let y1 := gaussLegendre fp xmin (xmin + (xmax - xmin) * (1 / 3))
  let y2 := gaussLegendre fp xmin (xmin + (xmax - xmin) * (2 / 3))
  let y3 := gaussLegendre fp xmin xmax
  let a := 13.5 * y1 - 13.5 * y2 + 4.5 * y3
  let b := -22.5 * y1 + 18.0 * y2 - 4.5 * y3
  let c := 9.0 * y1 - 4.5 * y2 + y3
  (fun x =>
    let s := (x - xmin) / (xmax - xmin)
    a * s * s * s + b * s * s + c * s,
   |y3|)

/-- C6 counterexample: for the integrand fp = −1 on [0,1] with the real
order-5 quadrature, the returned total length (an absolute value) differs
from the polynomial's value at xmax, which is negative. -/
theorem polynomialApprox3_length_ne_value_at_xmax :
    (0:ℝ) < 1 ∧
      (polynomialApprox3 gaussLegendre5 (fun _ => -1) 0 1).2 ≠
        (polynomialApprox3 gaussLegendre5 (fun _ => -1) 0 1).1 1 := by
  constructor
  · norm_num
  · norm_num [polynomialApprox3, gaussLegendre5]

/-- C6 as amended: for every quadrature function, integrand and domain with
xmin < xmax, the returned polynomial vanishes at xmin and reproduces the
three quadrature samples y1, y2, y3 at xmin+(xmax−xmin)/3,
xmin+2(xmax−xmin)/3 and xmax; the returned total length equals the absolute
value |y(xmax)| of the polynomial's value at xmax (equal to y(xmax) itself
only when that value is nonnegative). -/
theorem polynomialApprox3_samples (gl : (ℝ → ℝ) → ℝ → ℝ → ℝ) (fp : ℝ → ℝ)
    (xmin xmax : ℝ) (h : xmin < xmax) :
    (polynomialApprox3 gl fp xmin xmax).1 xmin = 0 ∧
    (polynomialApprox3 gl fp xmin xmax).1 (xmin + (xmax - xmin) * (1 / 3)) =
      gl fp xmin (xmin + (xmax - xmin) * (1 / 3)) ∧
    (polynomialApprox3 gl fp xmin xmax).1 (xmin + (xmax - xmin) * (2 / 3)) =
      gl fp xmin (xmin + (xmax - xmin) * (2 / 3)) ∧
    (polynomialApprox3 gl fp xmin xmax).1 xmax = gl fp xmin xmax ∧
    (polynomialApprox3 gl fp xmin xmax).2 =
      |(polynomialApprox3 gl fp xmin xmax).1 xmax| := by
  have hne : xmax - xmin ≠ 0 := sub_ne_zero.mpr (ne_of_gt h)
  have hs0 : (xmin - xmin) / (xmax - xmin) = 0 := by
    rw [sub_self, zero_div]
  have hs1 : (xmin + (xmax - xmin) * (1 / 3) - xmin) / (xmax - xmin) = 1 / 3 := by
    field_simp
    ring
  have hs2 : (xmin + (xmax - xmin) * (2 / 3) - xmin) / (xmax - xmin) = 2 / 3 := by
    field_simp
    ring
  have hs3 : (xmax - xmin) / (xmax - xmin) = 1 := div_self hne
  have hlast : (polynomialApprox3 gl fp xmin xmax).1 xmax = gl fp xmin xmax := by
    simp only [polynomialApprox3, hs3]
    ring
  refine ⟨?_, ?_, ?_, hlast, ?_⟩
  · simp only [polynomialApprox3, hs0]
    ring
  · simp only [polynomialApprox3, hs1]
    ring
  · simp only [polynomialApprox3, hs2]
    ring
  · rw [hlast]
    simp only [polynomialApprox3]

/-- C6 witness: the amended statement instantiated at the real order-5
quadrature, fp = 1, domain [0,1]. -/
theorem polynomialApprox3_samples_witness :
    (polynomialApprox3 gaussLegendre5 (fun _ => 1) 0 1).2 =
      |(polynomialApprox3 gaussLegendre5 (fun _ => 1) 0 1).1 1| :=
  (polynomialApprox3_samples gaussLegendre5 (fun _ => 1) 0 1 (by norm_num)).2.2.2.2

/-! ### Elliptical arc geometry (C8, C10) -/

/-- `ellipsePos` of `path_util.go`: position on the rotated ellipse at
angle theta. -/
noncomputable def ellipsePos (rx ry phi cx cy theta : ℝ) : Point :=
  ⟨cx + rx * Real.cos theta * Real.cos phi - ry * Real.sin theta * Real.sin phi,
   cy + rx * Real.cos theta * Real.sin phi + ry * Real.sin theta * Real.cos phi⟩

/-- `ellipseDeriv` of `path_util.go`: derivative at angle theta; the sign is
reversed when sweep is false. -/
noncomputable def ellipseDeriv (rx ry phi : ℝ) (sweep : Bool) (theta : ℝ) : Point :=
  let dx := -rx * Real.sin theta * Real.cos phi - ry * Real.cos theta * Real.sin phi
  let dy := -rx * Real.sin theta * Real.sin phi + ry * Real.cos theta * Real.cos phi
  if sweep then ⟨dx, dy⟩ else ⟨-dx, -dy⟩

/-- `ellipseLength` of `path_util.go`: arc length between two angles,
auto-ordered ascending, via order-5 quadrature of the tangent speed. -/
noncomputable def ellipseLength (rx ry theta1 theta2 : ℝ) : ℝ :=
  let p := if theta2 < theta1 then (theta2, theta1) else (theta1, theta2)
  gaussLegendre5 (fun theta => (ellipseDeriv rx ry 0 true theta).length) p.1 p.2

/-- C8: `ellipseLength` is symmetric in its two angle arguments, because the
angles are sorted ascending before integrating. -/
theorem ellipseLength_symm (rx ry theta1 theta2 : ℝ) :
    ellipseLength rx ry theta1 theta2 = ellipseLength rx ry theta2 theta1 := by
  unfold ellipseLength
  rcases lt_trichotomy theta1 theta2 with h | h | h
  · rw [if_neg (not_lt.mpr (le_of_lt h)), if_pos h]
  · rw [h]
  · rw [if_pos h, if_neg (not_lt.mpr (le_of_lt h))]

/-- Modelled from the spec: angle normalization into [0, 2π); a geometry
helper utility consumed by the core but missing from the sources at hand. -/
noncomputable def angleNorm (theta : ℝ) : ℝ :=
  theta - 2 * Real.pi * ⌊theta / (2 * Real.pi)⌋

/-- `ellipseToCenter` of `path_util.go`: SVG endpoint-to-center conversion,
returning (centerX, centerY, angleFrom, angleTo). -/
noncomputable def ellipseToCenter (x1 y1 rx ry phi : ℝ) (large sweep : Bool)
    (x2 y2 : ℝ) : ℝ × ℝ × ℝ × ℝ :=
  if x1 = x2 ∧ y1 = y2 then (x1, y1, 0, 0)
  else
    let sinphi := Real.sin phi
    let cosphi := Real.cos phi
    let x1p := cosphi * (x1 - x2) / 2 + sinphi * (y1 - y2) / 2
    let y1p := -sinphi * (x1 - x2) / 2 + cosphi * (y1 - y2) / 2
    let raddiCheck := x1p * x1p / rx / rx + y1p * y1p / ry / ry
    -- `if raddiCheck > 1.0 { rx *= sqrt; ry *= sqrt }`: Go mutates rx, ry
    let rx := if raddiCheck > 1 then rx * Real.sqrt raddiCheck else rx
    let ry := if raddiCheck > 1 then ry * Real.sqrt raddiCheck else ry
    let sq0 := (rx * rx * ry * ry - rx * rx * y1p * y1p - ry * ry * x1p * x1p) /
      (rx * rx * y1p * y1p + ry * ry * x1p * x1p)
    let sq := if sq0 < 0 then 0 else sq0
    let coef0 := Real.sqrt sq
    let coef := if large = sweep then -coef0 else coef0
    let cxp := coef * rx * y1p / ry
    let cyp := coef * (-ry) * x1p / rx
    let cx := cosphi * cxp - sinphi * cyp + (x1 + x2) / 2
    let cy := sinphi * cxp + cosphi * cyp + (y1 + y2) / 2
    let ux := (x1p - cxp) / rx
    let uy := (y1p - cyp) / ry
    let vx := -(x1p + cxp) / rx
    let vy := -(y1p + cyp) / ry
    let theta0 := Real.arccos (ux / Real.sqrt (ux * ux + uy * uy))
    let theta1 := if uy < 0 then -theta0 else theta0
    let theta := angleNorm theta1
    let deltaAcos := min 1 (max (-1)
      ((ux * vx + uy * vy) / Real.sqrt ((ux * ux + uy * uy) * (vx * vx + vy * vy))))
    let delta0 := Real.arccos deltaAcos
    let delta1 := if ux * vy - uy * vx < 0 then -delta0 else delta0
    let delta :=
      if ¬sweep ∧ delta1 > 0 then delta1 - 2 * Real.pi
      else if sweep ∧ delta1 < 0 then delta1 + 2 * Real.pi
      else delta1
    (cx, cy, theta, theta + delta)

/-- The emission loop of `flattenEllipse`, acting on the converted
center-form arc: `n := int(|theta2-theta1| / 2 / pi * 64)` equally spaced
line commands. -/
noncomputable def flattenEllipseCenter (rx ry phi cx cy theta1 theta2 : ℝ) : Path :=
  let n : ℤ := ⌊|theta2 - theta1| / 2 / Real.pi * 64⌋
  (List.range n.toNat).map (fun (i : ℕ) =>
    let t : ℝ := ((i : ℝ) + 1) / (n : ℝ)
    let e := ellipsePos rx ry phi cx cy (theta1 + (theta2 - theta1) * t)
    PathCmd.lineTo e.X e.Y)

/-- `flattenEllipse` of `path_util.go`: convert the endpoint arc to center
form, then emit the fixed-density polyline. -/
noncomputable def flattenEllipse (start : Point) (rx ry phi : ℝ)
    (largeArc sweep : Bool) (pend : Point) : Path :=
  let c := ellipseToCenter start.X start.Y rx ry phi largeArc sweep pend.X pend.Y
  flattenEllipseCenter rx ry phi c.1 c.2.1 c.2.2.1 c.2.2.2

lemma flattenEllipseCenter_spec (rx ry phi cx cy theta1 theta2 : ℝ) :
    (flattenEllipseCenter rx ry phi cx cy theta1 theta2).length =
      (⌊|theta2 - theta1| / 2 / Real.pi * 64⌋).toNat ∧
    (1 ≤ (⌊|theta2 - theta1| / 2 / Real.pi * 64⌋).toNat →
      (flattenEllipseCenter rx ry phi cx cy theta1 theta2).getLast? =
        some (PathCmd.lineTo (ellipsePos rx ry phi cx cy theta2).X
          (ellipsePos rx ry phi cx cy theta2).Y)) := by
  constructor
  · unfold flattenEllipseCenter
    rw [List.length_map, List.length_range]
  · intro hn
    obtain ⟨m, hm⟩ : ∃ m, (⌊|theta2 - theta1| / 2 / Real.pi * 64⌋).toNat = m + 1 :=
      ⟨(⌊|theta2 - theta1| / 2 / Real.pi * 64⌋).toNat - 1, by omega⟩
    have hcast : ((⌊|theta2 - theta1| / 2 / Real.pi * 64⌋ : ℤ) : ℝ) = (m : ℝ) + 1 := by
      have h0 : (0:ℤ) ≤ ⌊|theta2 - theta1| / 2 / Real.pi * 64⌋ := by omega
      have := Int.toNat_of_nonneg h0
      rw [← this, hm]
      push_cast
      ring
    unfold flattenEllipseCenter
    simp only [hm]
    rw [List.range_succ, List.map_append, List.map_singleton, List.getLast?_concat]
    have ht : ((m : ℝ) + 1) / ((⌊|theta2 - theta1| / 2 / Real.pi * 64⌋ : ℤ) : ℝ) = 1 := by
      rw [hcast]
      apply div_self
      positivity
    rw [ht]
    have harg : theta1 + (theta2 - theta1) * 1 = theta2 := by ring
    rw [harg]

/-- C10: `flattenEllipse` emits exactly ⌊|θ2−θ1|·64/(2π)⌋ line commands for
the converted center-form arc — none at all when the span is below one
sixty-fourth of a turn — and when at least one command is emitted the last
one lands exactly on the arc endpoint at θ2. -/
theorem flattenEllipse_count (x1 y1 rx ry phi : ℝ) (largeArc sweep : Bool)
    (x2 y2 cx cy theta1 theta2 : ℝ)
    (hc : ellipseToCenter x1 y1 rx ry phi largeArc sweep x2 y2 =
      (cx, cy, theta1, theta2)) :
    (flattenEllipse ⟨x1, y1⟩ rx ry phi largeArc sweep ⟨x2, y2⟩).length =
      (⌊|theta2 - theta1| / 2 / Real.pi * 64⌋).toNat ∧
    ((⌊|theta2 - theta1| / 2 / Real.pi * 64⌋).toNat = 0 ↔
      |theta2 - theta1| < 2 * Real.pi / 64) ∧
    (1 ≤ (⌊|theta2 - theta1| / 2 / Real.pi * 64⌋).toNat →
      (flattenEllipse ⟨x1, y1⟩ rx ry phi largeArc sweep ⟨x2, y2⟩).getLast? =
        some (PathCmd.lineTo (ellipsePos rx ry phi cx cy theta2).X
          (ellipsePos rx ry phi cx cy theta2).Y)) := by
  have hme : flattenEllipse ⟨x1, y1⟩ rx ry phi largeArc sweep ⟨x2, y2⟩ =
      flattenEllipseCenter rx ry phi cx cy theta1 theta2 := by
    unfold flattenEllipse
    rw [hc]
  obtain ⟨hl, hlast⟩ := flattenEllipseCenter_spec rx ry phi cx cy theta1 theta2
  refine ⟨by rw [hme]; exact hl, ?_, by rw [hme]; exact hlast⟩
  have hpi : (0:ℝ) < Real.pi := Real.pi_pos
  constructor
  · intro h0
    have hle : ⌊|theta2 - theta1| / 2 / Real.pi * 64⌋ ≤ 0 := by omega
    have hlt : |theta2 - theta1| / 2 / Real.pi * 64 < 1 := by
      by_contra hge
      push_neg at hge
      have : (1:ℤ) ≤ ⌊|theta2 - theta1| / 2 / Real.pi * 64⌋ := by
        exact_mod_cast Int.le_floor.mpr (by exact_mod_cast hge)
      omega
    rw [show |theta2 - theta1| / 2 / Real.pi * 64 = |theta2 - theta1| * 32 / Real.pi
      from by ring, div_lt_one hpi] at hlt
    linarith
  · intro h
    have hlt : |theta2 - theta1| / 2 / Real.pi * 64 < 1 := by
      rw [show |theta2 - theta1| / 2 / Real.pi * 64 = |theta2 - theta1| * 32 / Real.pi
        from by ring, div_lt_one hpi]
      linarith
    have : ⌊|theta2 - theta1| / 2 / Real.pi * 64⌋ < 1 := by
      exact_mod_cast Int.floor_lt.mpr (by exact_mod_cast hlt)
    omega

/-- C10 witness: the unit semicircle from (1,0) to (−1,0) (center form
(0,0), angles 0 to π) emits 32 segments, the last landing on the endpoint. -/
theorem flattenEllipse_count_witness :
    1 ≤ (⌊|Real.pi - 0| / 2 / Real.pi * 64⌋).toNat ∧
    (flattenEllipse ⟨1, 0⟩ 1 1 0 false true ⟨-1, 0⟩).getLast? =
      some (PathCmd.lineTo (ellipsePos 1 1 0 0 0 Real.pi).X
        (ellipsePos 1 1 0 0 0 Real.pi).Y) := by
  have hc : ellipseToCenter 1 0 1 1 0 false true (-1) 0 = (0, 0, 0, Real.pi) := by
    have hpi : ¬(Real.pi < 0) := not_lt.mpr Real.pi_pos.le
    norm_num [ellipseToCenter, angleNorm, Real.sqrt_zero, Real.sqrt_one,
      Real.arccos_one, Real.arccos_neg_one, hpi]
  have hn : (⌊|Real.pi - 0| / 2 / Real.pi * 64⌋ : ℤ) = 32 := by
    rw [sub_zero, abs_of_nonneg Real.pi_pos.le,
      show Real.pi / 2 / Real.pi * 64 = (32:ℝ) from by
        field_simp
        ring]
    norm_num
  refine ⟨by rw [hn]; norm_num, ?_⟩
  exact (flattenEllipse_count 1 0 1 1 0 false true (-1) 0 0 0 0 Real.pi hc).2.2
    (by rw [hn]; norm_num)

/-! ### Cubic Bézier geometry (C9, C1) -/

/-- The `t == 0.0` branch of `cubicBezierNormal`: walk forward through the
control points until a non-degenerate difference is found. -/
noncomputable def cubicBezierNormalStart (p0 p1 p2 p3 : Point) (d : ℝ) : Point :=
  let n1 := p1.sub p0
  let n2 := if n1.X = 0 ∧ n1.Y = 0 then p2.sub p0 else n1
  let n3 := if n2.X = 0 ∧ n2.Y = 0 then p3.sub p0 else n2
  if n3.X = 0 ∧ n3.Y = 0 then ⟨0, 0⟩ else (n3.rot90CW).norm d

/-- The `t == 1.0` branch of `cubicBezierNormal`: walk backward through the
control points until a non-degenerate difference is found. -/
noncomputable def cubicBezierNormalEnd (p0 p1 p2 p3 : Point) (d : ℝ) : Point :=
  let n1 := p3.sub p2
  let n2 := if n1.X = 0 ∧ n1.Y = 0 then p3.sub p1 else n1
  let n3 := if n2.X = 0 ∧ n2.Y = 0 then p3.sub p0 else n2
  if n3.X = 0 ∧ n3.Y = 0 then ⟨0, 0⟩ else (n3.rot90CW).norm d

/-- `cubicBezierNormal` of `path_util.go`: right-side normal of length d at
t = 0 or t = 1 only; `none` embeds the `panic("not implemented")` the source
raises at every interior parameter. -/
noncomputable def cubicBezierNormal (p0 p1 p2 p3 : Point) (t d : ℝ) : Option Point :=
  if t = 0 then some (cubicBezierNormalStart p0 p1 p2 p3 d)
  else if t = 1 then some (cubicBezierNormalEnd p0 p1 p2 p3 d)
  else none

/-- C9: `cubicBezierNormal` returns a well-defined point at t = 0 and t = 1
for any control points (including fully coincident ones), and panics —
returns the `none` embedding of `panic` — at every other parameter. -/
theorem cubicBezierNormal_endpoint_only (p0 p1 p2 p3 : Point) (d : ℝ) :
    (cubicBezierNormal p0 p1 p2 p3 0 d).isSome = true ∧
    (cubicBezierNormal p0 p1 p2 p3 1 d).isSome = true ∧
    ∀ t : ℝ, t ≠ 0 → t ≠ 1 → cubicBezierNormal p0 p1 p2 p3 t d = none := by
  refine ⟨by simp [cubicBezierNormal], by simp [cubicBezierNormal], ?_⟩
  intro t h0 h1
  simp [cubicBezierNormal, h0, h1]

/-- C9 witness: at four coincident control points the endpoint normals are
still defined, and the interior parameter 1/2 panics. -/
theorem cubicBezierNormal_endpoint_only_witness :
    (cubicBezierNormal ⟨0, 0⟩ ⟨0, 0⟩ ⟨0, 0⟩ ⟨0, 0⟩ 0 1).isSome = true ∧
    (cubicBezierNormal ⟨0, 0⟩ ⟨0, 0⟩ ⟨0, 0⟩ ⟨0, 0⟩ 1 1).isSome = true ∧
    cubicBezierNormal ⟨0, 0⟩ ⟨0, 0⟩ ⟨0, 0⟩ ⟨0, 0⟩ (1/2) 1 = none := by
  obtain ⟨h0, h1, hint⟩ :=
    cubicBezierNormal_endpoint_only ⟨0, 0⟩ ⟨0, 0⟩ ⟨0, 0⟩ ⟨0, 0⟩ 1
  exact ⟨h0, h1, hint (1/2) (by norm_num) (by norm_num)⟩

/-- The 4+4 control points produced by `splitCubicBezier` (a fixed-arity
multi-value return in the source). -/
structure SplitCubic where
  q0 : Point
  q1 : Point
  q2 : Point
  q3 : Point
  r0 : Point
  r1 : Point
  r2 : Point
  r3 : Point

/-- `splitCubicBezier` of `path_util.go`: De Casteljau subdivision at t. -/
def splitCubicBezier (p0 p1 p2 p3 : Point) (t : ℝ) : SplitCubic :=
  let pm := p1.interpolate p2 t
  let q0 := p0
  let q1 := p0.interpolate p1 t
  let q2 := q1.interpolate pm t
  let r3 := p3
  let r2 := p2.interpolate p3 t
  let r1 := pm.interpolate r2 t
  let r0 := q2.interpolate r1 t
  ⟨q0, q1, q2, r0, r0, r1, r2, r3⟩

/-- `addCubicBezierLine` of `path_util.go`: append the line for parameter
t ∈ {0, 1} of the (offset) cubic, skipping segments caught by the
degeneracy test `p0.X == p3.X && p0.Y == p3.X && (p0 == p1 || p0 == p2)`
(sic: the source compares `p0.Y` with `p3.X`); `none` embeds the
`panic("not implemented")` at interior t. -/
noncomputable def addCubicBezierLine (p : Path) (p0 p1 p2 p3 : Point)
    (t d : ℝ) : Option Path :=
  if p0.X = p3.X ∧ p0.Y = p3.X ∧
      ((p0.X = p1.X ∧ p0.Y = p1.Y) ∨ (p0.X = p2.X ∧ p0.Y = p2.Y)) then
    -- Bezier has p0=p1=p3 or p0=p2=p3 and thus has no surface
    some p
  else if t = 0 then
    let pos := if d ≠ 0 then p0.add (cubicBezierNormalStart p0 p1 p2 p3 d) else p0
    some (p.lineTo pos.X pos.Y)
  else if t = 1 then
    let pos := if d ≠ 0 then p3.add (cubicBezierNormalEnd p0 p1 p2 p3 d) else p3
    some (p.lineTo pos.X pos.Y)
  else none

/-- C1 (code bug): for the fully degenerate segment p0 = p1 = p3 = (0,1)
(any p2), the degeneracy test fails — it compares p0.Y with p3.X instead of
p3.Y — and `addCubicBezierLine` appends a line command even though the
code's own comment says such a segment has no surface. -/
theorem addCubicBezierLine_fully_degenerate_emits :
    addCubicBezierLine [] ⟨0, 1⟩ ⟨0, 1⟩ ⟨5, 5⟩ ⟨0, 1⟩ 1 0 =
      some [PathCmd.lineTo 0 1] := by
  rw [addCubicBezierLine]
  rw [if_neg (by norm_num : ¬((0:ℝ) = 0 ∧ (1:ℝ) = 0 ∧
    (((0:ℝ) = 0 ∧ (1:ℝ) = 1) ∨ ((0:ℝ) = 5 ∧ (1:ℝ) = 5))))]
  rw [if_neg (by norm_num : ¬(1:ℝ) = 0), if_pos rfl]
  simp [Path.lineTo]

/-! ### Adaptive flattener / stroker (C2) -/

/-- `findInflectionPointsCubicBezier` of `path_util.go`: the inflection
parameters in [0,1), as the (possibly absent) roots of a quadratic built
from cross products of the derivative coefficients. -/
noncomputable def findInflectionPointsCubicBezier (p0 p1 p2 p3 : Point) :
    Option ℝ × Option ℝ :=
  let aX := -p0.X + 3 * p1.X - 3 * p2.X + p3.X
  let aY := -p0.Y + 3 * p1.Y - 3 * p2.Y + p3.Y
  let bX := p0.X - 2 * p1.X + p2.X
  let bY := p0.Y - 2 * p1.Y + p2.Y
  let cX := -p0.X + p1.X
  let cY := -p0.Y + p1.Y
  solveQuadraticFormula (aY * bX - aX * bY) (aY * cX - aX * cY) (bY * cX - bX * cY)

/-- `math.Cbrt`: sign-preserving real cube root. -/
noncomputable def cbrt (x : ℝ) : ℝ :=
  if x < 0 then -(|x| ^ ((1:ℝ) / 3)) else x ^ ((1:ℝ) / 3)

/-- `findInflectionPointRange` of `path_util.go`: the parameter window
around an inflection point inside which a single chord stays within
`flatness`. `none` (for an absent inflection parameter) embeds the source's
(+∞, +∞) result. The source's `panic` for t outside [0,1] is not modelled:
its only caller passes roots of the solver, which lie in [0,1). -/
noncomputable def findInflectionPointRange (p0 p1 p2 p3 : Point)
    (t : Option ℝ) (flatness : ℝ) : Option (ℝ × ℝ) :=
  match t with
  | none => none
  | some tv =>
    let sp := splitCubicBezier p0 p1 p2 p3 tv
    let q0 := if tv = 0 then p0 else sp.r0
    let q1 := if tv = 0 then p1 else sp.r1
    let q2 := if tv = 0 then p2 else sp.r2
    let q3 := if tv = 0 then p3 else sp.r3
    let nr0 := q1.sub q0
    let nr := if nr0.X = 0 ∧ nr0.Y = 0 then q2.sub q0 else nr0
    let ns := q3.sub q0
    if nr.X = 0 ∧ nr.Y = 0 then
      -- p0=p1=p2: the curve is straight
      some (0, 1)
    else
      let s3 := |ns.X * nr.Y - ns.Y * nr.X| / Real.sqrt (nr.X * nr.X + nr.Y * nr.Y)
      if s3 = 0 then some (0, 1)
      else
        let tf := cbrt (flatness / s3)
        some (tv - tf * (1 - tv), tv + tf * (1 - tv))

/-- The loop of `flattenSmoothCubicBezier`, with fuel; exits returning the
accumulated path and the current control points at a break (near-zero
curvature signal, or step t ≥ 1) or when the fuel runs out. `none`
propagates the panic embedding of `addCubicBezierLine` (unreachable here,
as the loop passes t = 0). -/
noncomputable def flattenSmoothLoop :
    ℕ → Path → Point → Point → Point → Point → ℝ → ℝ → ℝ →
      Option (Path × Point × Point × Point × Point)
  | 0, path, p0, p1, p2, p3, _, _, _ => some (path, p0, p1, p2, p3)
  | fuel + 1, path, p0, p1, p2, p3, d, flatness, t =>
      if t < 1 then
        let s2nom := (p2.X - p0.X) * (p1.Y - p0.Y) - (p2.Y - p0.Y) * (p1.X - p0.X)
        let denom := Real.sqrt ((p1.X - p0.X) * (p1.X - p0.X) +
          (p1.Y - p0.Y) * (p1.Y - p0.Y))
        if s2nom * denom = 0 then some (path, p0, p1, p2, p3)
        else
          let s2 := s2nom / denom
          let r1 := denom
          let effectiveFlatness := flatness / |1 + 2 * d * s2 / 3 / r1 / r1|
          let tNew := 2 * Real.sqrt (effectiveFlatness / 3 / |s2|)
          if 1 ≤ tNew then some (path, p0, p1, p2, p3)
          else
            let sp := splitCubicBezier p0 p1 p2 p3 tNew
            match addCubicBezierLine path sp.r0 sp.r1 sp.r2 sp.r3 0 d with
            | none => none
            | some path2 =>
                flattenSmoothLoop fuel path2 sp.r0 sp.r1 sp.r2 sp.r3 d flatness tNew
      else some (path, p0, p1, p2, p3)

/-- `flattenSmoothCubicBezier` of `path_util.go`: split the curve and emit
chords while the flatness bound is kept, then emit the final endpoint line.
The source's `for` loop carries no iteration cap; fuel 1000 stands in for
it, and every run a theorem mentions exits the loop before the fuel does. -/
noncomputable def flattenSmoothCubicBezier (p : Path) (p0 p1 p2 p3 : Point)
    (d flatness : ℝ) : Option Path :=
  match flattenSmoothLoop 1000 p p0 p1 p2 p3 d flatness 0 with
  | none => none
  | some (path2, q0, q1, q2, q3) => addCubicBezierLine path2 q0 q1 q2 q3 1 d

/-- `strokeCubicBezier` of `path_util.go` (Hain et al. 2005): flatten one
cubic segment, offset by d, within `flatness`, treating inflection-point
windows as single chords. `none` embeds the runs the real-number model
cannot represent: the source splits the curve at parameter +∞ (emitting
IEEE-NaN points) when the first inflection parameter is absent but the
second is present. -/
noncomputable def strokeCubicBezier (p0 p1 p2 p3 : Point) (d flatness : ℝ) :
    Option Path :=
  let tt := findInflectionPointsCubicBezier p0 p1 p2 p3
  match tt.1, tt.2 with
  | none, none =>
      -- no inflection points or cusps: approximate linearly by subdivision
      flattenSmoothCubicBezier [] p0 p1 p2 p3 d flatness
  | none, some _ => none
  | some t1, t2opt =>
    match findInflectionPointRange p0 p1 p2 p3 (some t1) flatness with
    | none => none   -- unreachable: a present parameter yields a finite range
    | some (t1min, t1max) =>
      match t2opt, findInflectionPointRange p0 p1 p2 p3 t2opt flatness with
      | none, _ =>
          -- t2 absent: its range is (+∞,+∞), so every `<= t2min` holds
          if t1min ≤ 0 ∧ 1 ≤ t1max then
            -- the single inflection window covers the whole curve
            addCubicBezierLine [] p0 p1 p2 p3 1 d
          else
            let pathA : Option Path :=
              if 0 < t1min then
                let sp := splitCubicBezier p0 p1 p2 p3 t1min
                flattenSmoothCubicBezier [] sp.q0 sp.q1 sp.q2 sp.q3 d flatness
              else some []
            if 0 < t1max ∧ t1max < 1 then
              let sp := splitCubicBezier p0 p1 p2 p3 t1max
              (pathA.bind fun p => addCubicBezierLine p sp.r0 sp.r1 sp.r2 sp.r3 0 d).bind
                fun p => flattenSmoothCubicBezier p sp.r0 sp.r1 sp.r2 sp.r3 d flatness
            else
              pathA.bind fun p => addCubicBezierLine p p0 p1 p2 p3 1 d
      | some _, none => none  -- unreachable likewise
      | some _, some (t2min, t2max) =>
          let pathA : Option Path :=
            if 0 < t1min then
              let sp := splitCubicBezier p0 p1 p2 p3 t1min
              flattenSmoothCubicBezier [] sp.q0 sp.q1 sp.q2 sp.q3 d flatness
            else some []
          -- the (E)-(F) tail shared by the fall-through paths
          let rest : Option Path → Option Path := fun pacc =>
            let pacc2 :=
              if 0 < t2min then
                if t2min < t1max then
                  let sp := splitCubicBezier p0 p1 p2 p3 t1max
                  pacc.bind fun p => addCubicBezierLine p sp.r0 sp.r1 sp.r2 sp.r3 0 d
                else if 0 < t1max then
                  let sp := splitCubicBezier p0 p1 p2 p3 t1max
                  let t2minq := (t2min - t1max) / (1 - t1max)
                  let sp2 := splitCubicBezier sp.r0 sp.r1 sp.r2 sp.r3 t2minq
                  pacc.bind fun p =>
                    flattenSmoothCubicBezier p sp2.q0 sp2.q1 sp2.q2 sp2.q3 d flatness
                else
                  let sp := splitCubicBezier p0 p1 p2 p3 t2min
                  pacc.bind fun p =>
                    flattenSmoothCubicBezier p sp.q0 sp.q1 sp.q2 sp.q3 d flatness
              else pacc
            if t2max < 1 then
              let sp := splitCubicBezier p0 p1 p2 p3 t2max
              (pacc2.bind fun p => addCubicBezierLine p sp.r0 sp.r1 sp.r2 sp.r3 0 d).bind
                fun p => flattenSmoothCubicBezier p sp.r0 sp.r1 sp.r2 sp.r3 d flatness
            else
              pacc2.bind fun p => addCubicBezierLine p p0 p1 p2 p3 1 d
          if 0 < t1max ∧ t1max < 1 ∧ t1max < t2min then
            let sp := splitCubicBezier p0 p1 p2 p3 t1max
            let pathB := pathA.bind fun p => addCubicBezierLine p sp.r0 sp.r1 sp.r2 sp.r3 0 d
            if 1 ≤ t2min then
              pathB.bind fun p => flattenSmoothCubicBezier p sp.r0 sp.r1 sp.r2 sp.r3 d flatness
            else rest pathB
          else if 1 ≤ t2min then
            pathA.bind fun p => addCubicBezierLine p p0 p1 p2 p3 1 d
          else rest pathA

lemma addCubicBezierLine_d0_t0 (p : Path) (p0 p1 p2 p3 : Point)
    (hdeg : ¬(p0.X = p3.X ∧ p0.Y = p3.X ∧
      ((p0.X = p1.X ∧ p0.Y = p1.Y) ∨ (p0.X = p2.X ∧ p0.Y = p2.Y)))) :
    addCubicBezierLine p p0 p1 p2 p3 0 0 = some (p.lineTo p0.X p0.Y) := by
  rw [addCubicBezierLine, if_neg hdeg, if_pos rfl]
  simp

lemma addCubicBezierLine_d0_t1 (p : Path) (p0 p1 p2 p3 : Point)
    (hdeg : ¬(p0.X = p3.X ∧ p0.Y = p3.X ∧
      ((p0.X = p1.X ∧ p0.Y = p1.Y) ∨ (p0.X = p2.X ∧ p0.Y = p2.Y)))) :
    addCubicBezierLine p p0 p1 p2 p3 1 0 = some (p.lineTo p3.X p3.Y) := by
  rw [addCubicBezierLine, if_neg hdeg, if_neg (by norm_num : ¬(1:ℝ) = 0), if_pos rfl]
  simp

/-- One continuing iteration of the flattening loop at offset d = 0: the
curvature signal is nonzero, the step tN stays below 1, so the loop splits
at tN, emits the split point, and recurses on the remainder. -/
lemma flattenSmoothLoop_d0_step (fuel : ℕ) (path : Path)
    (p0 p1 p2 p3 : Point) (flatness t : ℝ) (ht : t < 1)
    (S R tN : ℝ) (q0v q1v q2v r0v r1v r2v r3v : Point)
    (hS : (p2.X - p0.X) * (p1.Y - p0.Y) - (p2.Y - p0.Y) * (p1.X - p0.X) = S)
    (hR : (p1.X - p0.X) * (p1.X - p0.X) + (p1.Y - p0.Y) * (p1.Y - p0.Y) = R * R)
    (hRpos : 0 < R) (hSne : S ≠ 0)
    (htN : 2 * Real.sqrt (flatness / 3 / |S / R|) = tN) (hlt : tN < 1)
    (hsp : splitCubicBezier p0 p1 p2 p3 tN = ⟨q0v, q1v, q2v, r0v, r0v, r1v, r2v, r3v⟩)
    (hdeg : ¬(r0v.X = r3v.X ∧ r0v.Y = r3v.X ∧
      ((r0v.X = r1v.X ∧ r0v.Y = r1v.Y) ∨ (r0v.X = r2v.X ∧ r0v.Y = r2v.Y)))) :
    flattenSmoothLoop (fuel + 1) path p0 p1 p2 p3 0 flatness t =
      flattenSmoothLoop fuel (path.lineTo r0v.X r0v.Y) r0v r1v r2v r3v 0 flatness tN := by
  simp only [flattenSmoothLoop]
  rw [if_pos ht, hS, hR, Real.sqrt_mul_self hRpos.le,
    if_neg (mul_ne_zero hSne hRpos.ne'),
    show flatness / |1 + 2 * 0 * (S / R) / 3 / R / R| / 3 / |S / R| =
      flatness / 3 / |S / R| from by
        rw [show (2:ℝ) * 0 * (S / R) / 3 / R / R = 0 from by ring, add_zero,
          abs_one, div_one],
    htN, if_neg (not_le.mpr hlt), hsp,
    addCubicBezierLine_d0_t0 path r0v r1v r2v r3v hdeg]

/-- An exiting iteration of the flattening loop at offset d = 0: the step
tN reaches 1, so the loop breaks, handing back the current curve. -/
lemma flattenSmoothLoop_d0_exit (fuel : ℕ) (path : Path)
    (p0 p1 p2 p3 : Point) (flatness t : ℝ) (ht : t < 1)
    (S R : ℝ)
    (hS : (p2.X - p0.X) * (p1.Y - p0.Y) - (p2.Y - p0.Y) * (p1.X - p0.X) = S)
    (hR : (p1.X - p0.X) * (p1.X - p0.X) + (p1.Y - p0.Y) * (p1.Y - p0.Y) = R * R)
    (hRpos : 0 < R) (hSne : S ≠ 0)
    (hge : 1 ≤ 2 * Real.sqrt (flatness / 3 / |S / R|)) :
    flattenSmoothLoop (fuel + 1) path p0 p1 p2 p3 0 flatness t =
      some (path, p0, p1, p2, p3) := by
  simp only [flattenSmoothLoop]
  rw [if_pos ht, hS, hR, Real.sqrt_mul_self hRpos.le,
    if_neg (mul_ne_zero hSne hRpos.ne'),
    show flatness / |1 + 2 * 0 * (S / R) / 3 / R / R| / 3 / |S / R| =
      flatness / 3 / |S / R| from by
        rw [show (2:ℝ) * 0 * (S / R) / 3 / R / R = 0 from by ring, add_zero,
          abs_one, div_one],
    if_pos hge]

lemma sqrt_four_twentyfifths : Real.sqrt (4 / 25) = 2 / 5 := by
  rw [show (4 / 25 : ℝ) = (2 / 5) ^ 2 by norm_num, Real.sqrt_sq (by norm_num)]

lemma sqrt_nine_hundredths : Real.sqrt (9 / 100) = 3 / 10 := by
  rw [show (9 / 100 : ℝ) = (3 / 10) ^ 2 by norm_num, Real.sqrt_sq (by norm_num)]

/-- The looser run of the C2 counterexample: flattening the inflection-free
cubic ((0,0),(3,4),(−1,−1),(1,1)) at offset 0 with flatness 12/125 takes
steps t = 4/5 and t = 4/5 (of the remainder) before the break, emitting
three line commands. -/
lemma flattenSmooth_loose :
    flattenSmoothCubicBezier [] ⟨0, 0⟩ ⟨3, 4⟩ ⟨-1, -1⟩ ⟨1, 1⟩ 0 (12 / 125) =
      some [PathCmd.lineTo (52 / 125) (64 / 125),
        PathCmd.lineTo (12312 / 15625) (12384 / 15625),
        PathCmd.lineTo 1 1] := by
  have habs15 : |(-1 : ℝ) / 5| = 1 / 5 := by
    rw [show ((-1 : ℝ) / 5) = -(1 / 5) by norm_num, abs_neg,
      abs_of_pos (by norm_num : (0:ℝ) < 1 / 5)]
  have htN1 : 2 * Real.sqrt ((12 / 125) / 3 / |(-1 : ℝ) / 5|) = 4 / 5 := by
    rw [habs15, show (12 / 125 : ℝ) / 3 / (1 / 5) = 4 / 25 by norm_num,
      sqrt_four_twentyfifths]
    norm_num
  have hsp1 : splitCubicBezier ⟨0, 0⟩ ⟨3, 4⟩ ⟨-1, -1⟩ ⟨1, 1⟩ (4 / 5) =
      ⟨⟨0, 0⟩, ⟨12/5, 16/5⟩, ⟨8/25, 16/25⟩, ⟨52/125, 64/125⟩,
       ⟨52/125, 64/125⟩, ⟨11/25, 12/25⟩, ⟨3/5, 3/5⟩, ⟨1, 1⟩⟩ := by
    norm_num [splitCubicBezier, Point.interpolate, Point.add, Point.sub, Point.mul]
  have step1 := flattenSmoothLoop_d0_step 999 [] ⟨0, 0⟩ ⟨3, 4⟩ ⟨-1, -1⟩ ⟨1, 1⟩
    (12 / 125) 0 (by norm_num) (-1) 5 (4 / 5)
    ⟨0, 0⟩ ⟨12/5, 16/5⟩ ⟨8/25, 16/25⟩ ⟨52/125, 64/125⟩ ⟨11/25, 12/25⟩ ⟨3/5, 3/5⟩ ⟨1, 1⟩
    (by norm_num) (by norm_num) (by norm_num) (by norm_num) htN1 (by norm_num)
    hsp1 (by norm_num)
  have htN2 : 2 * Real.sqrt ((12 / 125) / 3 / |(-1 / 125 : ℝ) / (1 / 25)|) = 4 / 5 := by
    rw [show ((-1 / 125 : ℝ) / (1 / 25)) = (-1 : ℝ) / 5 by norm_num, habs15,
      show (12 / 125 : ℝ) / 3 / (1 / 5) = 4 / 25 by norm_num,
      sqrt_four_twentyfifths]
    norm_num
  have hsp2 : splitCubicBezier ⟨52/125, 64/125⟩ ⟨11/25, 12/25⟩ ⟨3/5, 3/5⟩ ⟨1, 1⟩ (4 / 5) =
      ⟨⟨52/125, 64/125⟩, ⟨272/625, 304/625⟩, ⟨1692/3125, 1744/3125⟩,
       ⟨12312/15625, 12384/15625⟩,
       ⟨12312/15625, 12384/15625⟩, ⟨531/625, 532/625⟩, ⟨23/25, 23/25⟩, ⟨1, 1⟩⟩ := by
    norm_num [splitCubicBezier, Point.interpolate, Point.add, Point.sub, Point.mul]
  have step2 := flattenSmoothLoop_d0_step 998
    (Path.lineTo [] (Point.mk (52/125) (64/125)).X (Point.mk (52/125) (64/125)).Y)
    ⟨52/125, 64/125⟩ ⟨11/25, 12/25⟩ ⟨3/5, 3/5⟩ ⟨1, 1⟩
    (12 / 125) (4 / 5) (by norm_num) (-1 / 125) (1 / 25) (4 / 5)
    ⟨52/125, 64/125⟩ ⟨272/625, 304/625⟩ ⟨1692/3125, 1744/3125⟩
    ⟨12312/15625, 12384/15625⟩ ⟨531/625, 532/625⟩ ⟨23/25, 23/25⟩ ⟨1, 1⟩
    (by norm_num) (by norm_num) (by norm_num) (by norm_num) htN2 (by norm_num)
    hsp2 (by norm_num)
  have hexit : flattenSmoothLoop 998
      (Path.lineTo (Path.lineTo [] (Point.mk (52/125) (64/125)).X (Point.mk (52/125) (64/125)).Y)
        (Point.mk (12312/15625) (12384/15625)).X (Point.mk (12312/15625) (12384/15625)).Y)
      ⟨12312/15625, 12384/15625⟩ ⟨531/625, 532/625⟩ ⟨23/25, 23/25⟩ ⟨1, 1⟩
      0 (12 / 125) (4 / 5) =
      some (Path.lineTo (Path.lineTo [] (Point.mk (52/125) (64/125)).X (Point.mk (52/125) (64/125)).Y)
        (Point.mk (12312/15625) (12384/15625)).X (Point.mk (12312/15625) (12384/15625)).Y,
        ⟨12312/15625, 12384/15625⟩, ⟨531/625, 532/625⟩, ⟨23/25, 23/25⟩, ⟨1, 1⟩) := by
    set R : ℝ := Real.sqrt (70657 / 9765625) with hRdef
    have hRpos : 0 < R := Real.sqrt_pos.mpr (by norm_num)
    have hR2 : R ^ 2 = 70657 / 9765625 := Real.sq_sqrt (by norm_num)
    have hge : 1 ≤ 2 * Real.sqrt ((12 / 125) / 3 / |(-221 / 1953125 : ℝ) / R|) := by
      have habs : |(-221 / 1953125 : ℝ) / R| = (221 / 1953125) / R := by
        rw [abs_div, abs_of_pos hRpos,
          show (-221 / 1953125 : ℝ) = -(221 / 1953125) by norm_num, abs_neg,
          abs_of_pos (by norm_num : (0:ℝ) < 221 / 1953125)]
      rw [habs, show (12 / 125 : ℝ) / 3 / ((221 / 1953125) / R) = (62500 / 221) * R from by
        field_simp
        ring]
      have hRlb : (221 / 250000 : ℝ) ≤ R := by
        nlinarith [hR2, hRpos]
      have harg2 : ((1 : ℝ) / 2) ^ 2 ≤ (62500 / 221) * R := by
        nlinarith [hRlb]
      have h12 : (1 / 2 : ℝ) ≤ Real.sqrt ((62500 / 221) * R) :=
        (Real.le_sqrt (by norm_num) (by positivity)).mpr harg2
      linarith
    rw [show (998 : ℕ) = 997 + 1 from rfl]
    exact flattenSmoothLoop_d0_exit 997 _ _ _ _ _ _ _ (by norm_num)
      (-221 / 1953125) R (by norm_num)
      (by rw [hRdef, Real.mul_self_sqrt (by norm_num : (0:ℝ) ≤ 70657 / 9765625)]; norm_num)
      hRpos (by norm_num) hge
  rw [flattenSmoothCubicBezier,
    show (1000 : ℕ) = 999 + 1 from rfl, step1,
    show (999 : ℕ) = 998 + 1 from rfl, step2, hexit]
  show addCubicBezierLine _ _ _ _ _ 1 0 = _
  rw [addCubicBezierLine_d0_t1 _ _ _ _ _ (by norm_num)]
  simp [Path.lineTo]

/-- The tighter run of the C2 counterexample: flattening the same cubic at
offset 0 with the smaller flatness 27/500 takes one step t = 3/5, after
which the remainder's curvature signal is so small that the next step
reaches 1 — only two line commands are emitted. -/
lemma flattenSmooth_tight :
    flattenSmoothCubicBezier [] ⟨0, 0⟩ ⟨3, 4⟩ ⟨-1, -1⟩ ⟨1, 1⟩ 0 (27 / 500) =
      some [PathCmd.lineTo (81 / 125) (117 / 125), PathCmd.lineTo 1 1] := by
  have habs15 : |(-1 : ℝ) / 5| = 1 / 5 := by
    rw [show ((-1 : ℝ) / 5) = -(1 / 5) by norm_num, abs_neg,
      abs_of_pos (by norm_num : (0:ℝ) < 1 / 5)]
  have htN1 : 2 * Real.sqrt ((27 / 500) / 3 / |(-1 : ℝ) / 5|) = 3 / 5 := by
    rw [habs15, show (27 / 500 : ℝ) / 3 / (1 / 5) = 9 / 100 by norm_num,
      sqrt_nine_hundredths]
    norm_num
  have hsp1 : splitCubicBezier ⟨0, 0⟩ ⟨3, 4⟩ ⟨-1, -1⟩ ⟨1, 1⟩ (3 / 5) =
      ⟨⟨0, 0⟩, ⟨9/5, 12/5⟩, ⟨27/25, 39/25⟩, ⟨81/125, 117/125⟩,
       ⟨81/125, 117/125⟩, ⟨9/25, 13/25⟩, ⟨1/5, 1/5⟩, ⟨1, 1⟩⟩ := by
    norm_num [splitCubicBezier, Point.interpolate, Point.add, Point.sub, Point.mul]
  have step1 := flattenSmoothLoop_d0_step 999 [] ⟨0, 0⟩ ⟨3, 4⟩ ⟨-1, -1⟩ ⟨1, 1⟩
    (27 / 500) 0 (by norm_num) (-1) 5 (3 / 5)
    ⟨0, 0⟩ ⟨9/5, 12/5⟩ ⟨27/25, 39/25⟩ ⟨81/125, 117/125⟩ ⟨9/25, 13/25⟩ ⟨1/5, 1/5⟩ ⟨1, 1⟩
    (by norm_num) (by norm_num) (by norm_num) (by norm_num) htN1 (by norm_num)
    hsp1 (by norm_num)
  have hexit : flattenSmoothLoop 999
      (Path.lineTo [] (Point.mk (81/125) (117/125)).X (Point.mk (81/125) (117/125)).Y)
      ⟨81/125, 117/125⟩ ⟨9/25, 13/25⟩ ⟨1/5, 1/5⟩ ⟨1, 1⟩ 0 (27 / 500) (3 / 5) =
      some (Path.lineTo [] (Point.mk (81/125) (117/125)).X (Point.mk (81/125) (117/125)).Y,
        ⟨81/125, 117/125⟩, ⟨9/25, 13/25⟩, ⟨1/5, 1/5⟩, ⟨1, 1⟩) := by
    set R : ℝ := Real.sqrt (32 / 125) with hRdef
    have hRpos : 0 < R := Real.sqrt_pos.mpr (by norm_num)
    have hR2 : R ^ 2 = 32 / 125 := Real.sq_sqrt (by norm_num)
    have hge : 1 ≤ 2 * Real.sqrt ((27 / 500) / 3 / |(-16 / 625 : ℝ) / R|) := by
      have habs : |(-16 / 625 : ℝ) / R| = (16 / 625) / R := by
        rw [abs_div, abs_of_pos hRpos,
          show (-16 / 625 : ℝ) = -(16 / 625) by norm_num, abs_neg,
          abs_of_pos (by norm_num : (0:ℝ) < 16 / 625)]
      rw [habs, show (27 / 500 : ℝ) / 3 / ((16 / 625) / R) = (45 / 64) * R from by
        field_simp
        ring]
      have hRlb : (16 / 45 : ℝ) ≤ R := by
        nlinarith [hR2, hRpos]
      have harg2 : ((1 : ℝ) / 2) ^ 2 ≤ (45 / 64) * R := by
        nlinarith [hRlb]
      have h12 : (1 / 2 : ℝ) ≤ Real.sqrt ((45 / 64) * R) :=
        (Real.le_sqrt (by norm_num) (by positivity)).mpr harg2
      linarith
    rw [show (999 : ℕ) = 998 + 1 from rfl]
    exact flattenSmoothLoop_d0_exit 998 _ _ _ _ _ _ _ (by norm_num)
      (-16 / 625) R (by norm_num)
      (by rw [hRdef, Real.mul_self_sqrt (by norm_num : (0:ℝ) ≤ 32 / 125)]; norm_num)
      hRpos (by norm_num) hge
  rw [flattenSmoothCubicBezier,
    show (1000 : ℕ) = 999 + 1 from rfl, step1, hexit]
  show addCubicBezierLine _ _ _ _ _ 1 0 = _
  rw [addCubicBezierLine_d0_t1 _ _ _ _ _ (by norm_num)]
  simp [Path.lineTo]

lemma inflection_free_example :
    findInflectionPointsCubicBezier ⟨0, 0⟩ ⟨3, 4⟩ ⟨-1, -1⟩ ⟨1, 1⟩ = (none, none) := by
  have hsolve : solveQuadraticFormula 5 (-4) 1 = (none, none) := by
    rw [solveQuadraticFormula, if_neg (by norm_num : ¬(5:ℝ) = 0),
      if_neg (by norm_num : ¬(1:ℝ) = 0),
      if_pos (by norm_num : (-4:ℝ) * (-4) - 4 * 5 * 1 < 0)]
  rw [show findInflectionPointsCubicBezier ⟨0, 0⟩ ⟨3, 4⟩ ⟨-1, -1⟩ ⟨1, 1⟩ =
    solveQuadraticFormula 5 (-4) 1 from by
      norm_num [findInflectionPointsCubicBezier]]
  exact hsolve

lemma stroke_loose :
    strokeCubicBezier ⟨0, 0⟩ ⟨3, 4⟩ ⟨-1, -1⟩ ⟨1, 1⟩ 0 (12 / 125) =
      some [PathCmd.lineTo (52 / 125) (64 / 125),
        PathCmd.lineTo (12312 / 15625) (12384 / 15625),
        PathCmd.lineTo 1 1] := by
  simp only [strokeCubicBezier, inflection_free_example]
  exact flattenSmooth_loose

lemma stroke_tight :
    strokeCubicBezier ⟨0, 0⟩ ⟨3, 4⟩ ⟨-1, -1⟩ ⟨1, 1⟩ 0 (27 / 500) =
      some [PathCmd.lineTo (81 / 125) (117 / 125), PathCmd.lineTo 1 1] := by
  simp only [strokeCubicBezier, inflection_free_example]
  exact flattenSmooth_tight

/-- C2 counterexample: for the inflection-free cubic
((0,0),(3,4),(−1,−1),(1,1)) at offset d = 0, the tighter flatness tolerance
27/500 emits 2 path commands while the looser tolerance 12/125 emits 3 —
with a smaller first step the loop lands on a flatter remainder, whose next
step immediately reaches t = 1. -/
theorem strokeCubicBezier_tighter_fewer :
    0 < (27 / 500 : ℝ) ∧ (27 / 500 : ℝ) ≤ 12 / 125 ∧
    (strokeCubicBezier ⟨0, 0⟩ ⟨3, 4⟩ ⟨-1, -1⟩ ⟨1, 1⟩ 0 (27 / 500)).map List.length =
      some 2 ∧
    (strokeCubicBezier ⟨0, 0⟩ ⟨3, 4⟩ ⟨-1, -1⟩ ⟨1, 1⟩ 0 (12 / 125)).map List.length =
      some 3 := by
  refine ⟨by norm_num, by norm_num, ?_, ?_⟩
  · rw [stroke_tight]
    rfl
  · rw [stroke_loose]
    rfl

/-- C2 as amended: monotonic refinement does not hold — there are cubic
segments, offsets and tolerance pairs 0 < eps' ≤ eps for which stroking with
the tighter tolerance eps' emits strictly fewer path commands than with the
looser tolerance eps. -/
theorem strokeCubicBezier_refinement_not_monotone :
    ∃ (p0 p1 p2 p3 : Point) (d eps epsTight : ℝ),
      0 < epsTight ∧ epsTight ≤ eps ∧
      ∃ loose tight : Path,
        strokeCubicBezier p0 p1 p2 p3 d eps = some loose ∧
        strokeCubicBezier p0 p1 p2 p3 d epsTight = some tight ∧
        tight.length < loose.length := by
  refine ⟨⟨0, 0⟩, ⟨3, 4⟩, ⟨-1, -1⟩, ⟨1, 1⟩, 0, 12 / 125, 27 / 500,
    by norm_num, by norm_num, _, _, stroke_loose, stroke_tight, ?_⟩
  simp

end Canvas
